import Mathlib

/-!  Verification of the `ria` resume-analysis pipeline.

Shallow embedding of the repository's core: the tenacity retry wrappers
around the scrape and LLM-ingestion steps (`src/jobs.py`), the analysis
orchestrator `scrape_job_and_ingress_llm` and its event publishing, the SSE
stream reader `analysis_generator` (`src/api.py`), the `BrowserPool`
(`src/main.py`) and `ScraperRegistry.resolve` (`src/job_scraper.py`).
External effects (HTTP, redis, playwright) are modelled by explicit inputs:
each attempt of a wrapped call is an injected outcome, the redis stream is a
list of entries, the browser pool is a labelled transition system.  -/

namespace Ria

/-- Python exception values the code raises or classifies:
`playwright.TimeoutError`, `google.genai.errors.ServerError` and
`ClientError` (carrying their HTTP status code), and any other exception. -/
inductive PyExn where
  | timeoutError
  | serverError (code : Nat)
  | clientError (code : Nat)
  | otherError (msg : String)
  deriving DecidableEq, Repr

/-- Outcome of one attempt of a wrapped Python call: the call either
returns a value or raises an exception. -/
inductive Outcome (α : Type) where
  | ok (a : α)
  | exn (e : PyExn)
  deriving DecidableEq, Repr

/-- What the whole tenacity-wrapped call does: return a value, re-raise the
wrapped call's exception, or raise `RetryError` wrapping the last outcome
once `stop_after_attempt` is hit. -/
inductive TenacityResult (α : Type) where
  | returned (a : α)
  | raised (e : PyExn)
  | retryError (last : Outcome α)
  deriving DecidableEq, Repr

/-- `tenacity.wait_exponential(multiplier, min, max)`: the sleep after
attempt `n` (1-based) is `multiplier * 2 ^ n`, clamped into
`[minW, maxW]` (tenacity: `max(max(0, min), min(result, max))`). -/
def waitExponential (multiplier minW maxW n : Nat) : Nat :=
  max minW (min (multiplier * 2 ^ n) maxW)

/-- The `tenacity.retry` loop.  Attempt `n` runs; if the retry predicate
rejects the outcome, the call's own outcome stands (value returned or
exception re-raised); if it accepts the outcome and `stop_after_attempt`
is hit (`stopAfter ≤ n`), `RetryError` wrapping the last outcome is
raised; otherwise the policy sleeps `wait n` and tries again.  Returns the
final result, the number of attempts performed, and the sleeps performed.
`fuel` only bounds the recursion; `tenacityRun` supplies `stopAfter`,
which the stop condition makes sufficient. -/
def tenacityGo (retryPred : Outcome α → Bool) (stopAfter : Nat)
    (wait : Nat → Nat) (call : Nat → Outcome α) :
    Nat → Nat → TenacityResult α × Nat × List Nat
  | _, 0 => (.retryError (.exn (.otherError "out of fuel")), 0, [])
  | n, fuel + 1 =>
    let oc := call n
    if retryPred oc then
      if stopAfter ≤ n then (.retryError oc, n, [])
      else
        let (r, m, sleeps) := tenacityGo retryPred stopAfter wait call (n + 1) fuel
        (r, m, wait n :: sleeps)
    else
      match oc with
      | .ok a => (.returned a, n, [])
      | .exn e => (.raised e, n, [])

/-- A call decorated with `@retry(retry=..., stop=stop_after_attempt(k),
wait=...)`: attempts are numbered from 1. -/
def tenacityRun (retryPred : Outcome α → Bool) (stopAfter : Nat)
    (wait : Nat → Nat) (call : Nat → Outcome α) :
    TenacityResult α × Nat × List Nat :=
  tenacityGo retryPred stopAfter wait call 1 stopAfter

/-- `tenacity.retry_if_exception_type(T)`: retry exactly when the attempt
raised an exception of type `T`; a returned value is never retried. -/
def retryIfExceptionType (p : PyExn → Bool) : Outcome α → Bool
  | .ok _ => false
  | .exn e => p e

/-- `tenacity.retry_if_result(pred)`: `pred` is applied to the returned
value; an attempt that raised is never retried by this predicate (the
exception is re-raised at once). -/
def retryIfResult (p : α → Bool) : Outcome α → Bool
  | .ok a => p a
  | .exn _ => false

/-- `isinstance(e, TimeoutError)` for the playwright timeout. -/
def isTimeoutExn : PyExn → Bool
  | .timeoutError => true
  | _ => false

/-- The scraper output `{title, company, location, details}`. -/
structure JobData where
  title : String
  company : String
  location : String
  details : List String
  deriving DecidableEq, Repr

/-- One chunk of the LLM completion stream; `text` is `None` or a string
(`chunk.text` in the code). -/
structure Chunk where
  text : Option String
  deriving DecidableEq, Repr

/-- A Python value that can reach `is_retryable_error` at runtime: either an
exception object, or the (non-exception) stream object that
`generate_content_stream` returns. -/
inductive LLMCallValue where
  | exnObj (e : PyExn)
  | streamObj (chunks : List Chunk)
  deriving DecidableEq, Repr

/-- `is_retryable_error(e)` from `src/jobs.py`: `isinstance(e, ServerError)`
is retryable; `isinstance(e, ClientError)` with `e.code == 429` is
retryable; everything else — including a value that is not an exception
instance at all — is not. -/
def is_retryable_error : LLMCallValue → Bool
  | .exnObj (.serverError _) => true
  | .exnObj (.clientError c) => c == 429
  | _ => false

/-- The wait schedule of `scrape_job`:
`wait_exponential(multiplier=1, min=2, max=10)`. -/
def scrapeWait (n : Nat) : Nat := waitExponential 1 2 10 n

/-- `scrape_job`'s retry wrapper:
`retry=retry_if_exception_type((TimeoutError,))`, `stop=stop_after_attempt(3)`,
`wait=wait_exponential(multiplier=1, min=2, max=10)`.
`call n` is the outcome of the n-th underlying attempt. -/
def scrape_job_run (call : Nat → Outcome JobData) :
    TenacityResult JobData × Nat × List Nat :=
  tenacityRun (retryIfExceptionType isTimeoutExn) 3 scrapeWait call

/-- The wait schedule of `ingest_llm`:
`wait_exponential(multiplier=2, min=4, max=60)`. -/
def ingestWait (n : Nat) : Nat := waitExponential 2 4 60 n

/-- `ingest_llm`'s retry wrapper: `retry=retry_if_result(is_retryable_error)`,
`stop=stop_after_attempt(5)`, `wait=wait_exponential(multiplier=2, min=4,
max=60)`.  The predicate receives the attempt's returned value (the stream
object); tenacity's `retry_if_result` answers false for an attempt that
raised, so a raised `ClientError`/`ServerError` is re-raised unretried. -/
def ingest_llm_run (call : Nat → Outcome (List Chunk)) :
    TenacityResult (List Chunk) × Nat × List Nat :=
  tenacityRun (retryIfResult (fun s => is_retryable_error (.streamObj s))) 5
    ingestWait call

/-- An LLM call that raises a 429 rate-limit `ClientError` on the first
attempt and would succeed from the second attempt on. -/
def llm429ThenOk : Nat → Outcome (List Chunk) := fun n =>
  if n = 1 then .exn (.clientError 429) else .ok [⟨some "analysis"⟩]

/-! ## The analysis orchestrator and its event log (`scrape_job_and_ingress_llm`) -/

/-- A published event of the per-job stream, as `publish(request_id, type,
data)` writes it: `status` events carry `{"status": s, "message": m}`,
`delta` events carry `{"text": t}`, `done` carries `{"status": s}`. -/
inductive Event where
  | status (s : String) (message : String)
  | delta (text : String)
  | done (s : String)
  deriving DecidableEq, Repr

/-- The orchestrator's observable actions, in program order: event-log
publishes and the two step invocations. -/
inductive JobAction where
  | publish (e : Event)
  | scrapeCall (url : String)
  | llmCall
  deriving DecidableEq, Repr

/-- Truthiness of `chunk.text` in `if chunk.text:`: `None` and the empty
string are falsy. -/
def chunkTruthy (c : Chunk) : Bool :=
  match c.text with
  | some s => s != ""
  | none => false

/-- The `async for chunk in response_stream: if chunk.text: await
publish(request_id, "delta", {"text": chunk.text})` loop, as the list of
delta events it publishes. -/
def deltaEvents (chunks : List Chunk) : List Event :=
  chunks.filterMap fun c =>
    match c.text with
    | some s => if s = "" then none else some (.delta s)
    | none => none

/-- `scrape_job_and_ingress_llm(request_id, resume_text, job_url,
job_scraper)`, as the trace of publishes and step invocations it performs
together with the exception it lets escape (the handler body has no
try/except).  `scrapeResult` is the outcome of the retry-wrapped scrape
step for `jobUrl`; `llmResult jd` the outcome of issuing the LLM stream for
the scraped `jd`; a returned stream is consumed as the chunk list. -/
def scrape_job_and_ingress_llm (jobUrl : String)
    (scrapeResult : Outcome JobData)
    (llmResult : JobData → Outcome (List Chunk)) :
    List JobAction × Option PyExn :=
  let t0 : List JobAction :=
    [.publish (.status "scraping" "Accessing job url..."), .scrapeCall jobUrl]
  match scrapeResult with
  | .exn e => (t0, some e)
  | .ok jd =>
    let t1 := t0 ++ [.publish (.status "analyzing" "Reasoning with AI"), .llmCall]
    match llmResult jd with
    | .exn e => (t1, some e)
    | .ok chunks =>
      (t1 ++ (deltaEvents chunks).map .publish
          ++ [.publish (.done "complete")], none)

/-- The events a trace publishes, in order. -/
def publishedEvents (trace : List JobAction) : List Event :=
  trace.filterMap fun a =>
    match a with
    | .publish e => some e
    | _ => none

/-- The `text` fields of the delta events of an event list, in order. -/
def deltaTexts (es : List Event) : List String :=
  es.filterMap fun e =>
    match e with
    | .delta t => some t
    | _ => none

/-- Concatenation of a list of strings (left to right). -/
def concatTexts : List String → String
  | [] => ""
  | s :: rest => s ++ concatTexts rest

/-- The full analysis text: the concatenation of every chunk's text
(`None` contributing nothing). -/
def fullText (chunks : List Chunk) : String :=
  concatTexts (chunks.map fun c => c.text.getD "")

/-- A resume row as `process_and_save_resume` reads it. -/
structure ResumeRow where
  filename : String
  raw_text : String
  deriving DecidableEq, Repr

/-- `process_and_save_resume(request_id, resume_id)`: fetch the resume row,
fail if absent, call the LLM, fail if `response.text` is `None`, save the
parsed data.  The whole body is wrapped in `try ... except Exception:
logger.error(...)`, so the handler swallows every failure.  Returns the
exception the handler lets escape (always `none`) and whether the outer
`except` branch logged a failure. -/
def process_and_save_resume (fetched : Outcome (Option ResumeRow))
    (gen : String → Outcome (Option String))
    (save : String → Outcome Unit) : Option PyExn × Bool :=
  let body : Outcome Unit :=
    match fetched with
    | .exn e => .exn e
    | .ok none => .exn (.otherError "No resume found")
    | .ok (some r) =>
      match gen r.raw_text with
      | .exn e => .exn e
      | .ok none => .exn (.otherError "No response found")
      | .ok (some text) =>
        match save text with
        | .exn e => .exn e
        | .ok _ => .ok ()
  match body with
  | .exn _ => (none, true)
  | .ok _ => (none, false)

/-! ## The SSE stream reader (`analysis_generator` in `src/api.py`) -/

/-- One entry of the per-job redis stream: its stream id (modelled as a
`Nat`; the reader's initial cursor `"0-0"` is `0`), its `type` field and
its `payload` field (the JSON text). -/
structure Entry where
  id : Nat
  type : String
  payload : String
  deriving DecidableEq, Repr

/-- `build_sse_event(data, event_type)`:
`f"event: {event_type}\ndata: {json.dumps(data)}\n\n"` with the payload
kept as its JSON text. -/
def build_sse_event (payload : String) (eventType : String) : String :=
  "event: " ++ eventType ++ "\ndata: " ++ payload ++ "\n\n"

/-- The reader's `block` argument to `xread`, in milliseconds. -/
def xreadBlockMs : Nat := 5000

/-- The reader's `count` argument to `xread`. -/
def xreadCount : Nat := 10

/-- `redis.xread({stream_key: last_id}, block=…, count=…)` over a fixed
log: the entries with id strictly greater than the cursor, oldest first,
at most `count` of them. -/
def xread (log : List Entry) (lastId : Nat) (count : Nat) : List Entry :=
  (log.filter fun e => lastId < e.id).take count

/-- The `for message_id, fields in entries` body: advance the cursor to the
entry's id, yield its frame, and stop the whole generator right after a
`done` entry.  Returns the yielded frames, the final cursor, and whether a
`done` entry was hit. -/
def processEntries : List Entry → Nat → List String × Nat × Bool
  | [], cur => ([], cur, false)
  | e :: rest, _ =>
    if e.type = "done" then ([build_sse_event e.payload e.type], e.id, true)
    else
      (build_sse_event e.payload e.type :: (processEntries rest e.id).1,
       (processEntries rest e.id).2)

/-- The reader's `while True` poll loop over a fixed log, from cursor
`cur`; `polls` bounds how many `xread` calls the model unrolls (the code
loops forever, so a run that has not yet seen `done` is cut off at a batch
boundary). An empty poll (`if not messages: continue`) changes nothing. -/
def analysisLoop (log : List Entry) : Nat → Nat → List String
  | _, 0 => []
  | cur, polls + 1 =>
    if (xread log cur xreadCount).isEmpty then analysisLoop log cur polls
    else if (processEntries (xread log cur xreadCount) cur).2.2 then
      (processEntries (xread log cur xreadCount) cur).1
    else
      (processEntries (xread log cur xreadCount) cur).1
        ++ analysisLoop log (processEntries (xread log cur xreadCount) cur).2.1 polls

/-- `build_sse_event({"status": "listening"}, "status")`. -/
def listeningFrame : String :=
  build_sse_event "\x7b\"status\": \"listening\"\x7d" "status"

/-- `analysis_generator(job_id)`: the comment keep-alive frame, the
`status: listening` frame, then the poll loop from cursor `"0-0"`. -/
def analysis_generator (log : List Entry) (polls : Nat) : List String :=
  ":\n\n" :: listeningFrame :: analysisLoop log 0 polls

/-- The prefix of a log up to and including its first `done` entry (the
whole log if it has none). -/
def takeUntilDone : List Entry → List Entry
  | [] => []
  | e :: rest => if e.type = "done" then [e] else e :: takeUntilDone rest

/-- The SSE frames of a list of entries, in order. -/
def framesOf (es : List Entry) : List String :=
  es.map fun e => build_sse_event e.payload e.type

/-- Whether some entry has type `done`. -/
def hasDone (es : List Entry) : Bool :=
  es.any fun e => e.type == "done"

/-- A well-formed redis stream log: ids strictly increasing, and every id
nonzero (redis stream ids follow the `0-0` cursor strictly). -/
def WfLog (log : List Entry) : Prop :=
  log.Pairwise (fun a b => a.id < b.id) ∧ ∀ e ∈ log, 0 < e.id

/-- The reader's cursor after fully replaying a batch: the id of the last
entry seen, or the incoming cursor for an empty batch. -/
def endCursor (c : Nat) : List Entry → Nat
  | [] => c
  | e :: rest => endCursor e.id rest

/-! ## `ScraperRegistry.resolve` (`src/job_scraper.py`) -/

/-- A character `urllib.parse` accepts inside a URL scheme. -/
def isSchemeChar (c : Char) : Bool :=
  c.isAlphanum || c = '+' || c = '-' || c = '.'

/-- `urllib.parse.urlsplit`'s scheme removal: strip `scheme:` when the
text before the first `:` starts with a letter and is made of scheme
characters. -/
def dropScheme (l : List Char) : List Char :=
  match l.findIdx? (fun c => c == ':') with
  | none => l
  | some i =>
    if 0 < i ∧ (match l.head? with
                | some c => c.isAlpha
                | none => false) = true
        ∧ (l.take i).all isSchemeChar = true
    then l.drop (i + 1) else l

/-- `urlparse(url).netloc`: present only when the remainder after the
scheme starts with `//`, and then runs up to the next `/`, `?` or `#`. -/
def netlocOf (url : String) : String :=
  match dropScheme url.toList with
  | '/' :: '/' :: rest =>
    String.mk (rest.takeWhile fun c => !(c == '/' || c == '?' || c == '#'))
  | _ => ""

/-- Python's `key in hostname` substring test. -/
def containsSub (hay needle : String) : Bool :=
  hay.toList.tails.any fun t => needle.toList.isPrefixOf t

/-- A registered scraper variant (the class object stored in the
registry). -/
structure ScraperVariant where
  name : String
  deriving DecidableEq, Repr

/-- `ScraperRegistry.resolve(domain)`: parse the URL, take its netloc;
error if it is empty; otherwise return the first registered variant (the
registry is a dict in registration order, modelled as an association list)
whose key is a substring of the netloc; error if none matches. -/
def resolve (registry : List (String × ScraperVariant)) (url : String) :
    Except String ScraperVariant :=
  let hostname := netlocOf url
  if hostname = "" then .error "URL has no valid hostname"
  else
    match registry.find? (fun kv => containsSub hostname kv.1) with
    | some kv => .ok kv.2
    | none => .error ("No registered scraper for domain: " ++ url)

/-! ## `BrowserPool` (`src/main.py`) -/

/-- The pool's construction parameters. -/
structure PoolConfig where
  maxBrowsers : Nat
  maxPages : Nat
  deriving DecidableEq, Repr

/-- The pool's mutable state: whether `startup()` ran (`self._playwright`
is set), the list of connected upstream browsers (by connection id), the
number of pages currently checked out (the holders of
`self._page_semaphore`), and the id the next connection would get. -/
structure PoolState where
  started : Bool
  browsers : List Nat
  pagesOut : Nat
  nextId : Nat
  deriving DecidableEq, Repr

/-- The freshly constructed pool. -/
def initPool : PoolState := ⟨false, [], 0, 0⟩

/-- Labels of pool transitions: `acquire b` records which browser
connection the page was created on. -/
inductive PoolLabel where
  | startup
  | acquire (browserUsed : Nat)
  | acquireFail
  | release
  deriving DecidableEq, Repr

/-- One atomic step of the pool, every mutation happening under
`self._browser_lock` / the semaphore.  A page acquisition needs a free
semaphore slot (`pagesOut < maxPages`: at capacity no acquire step exists,
the caller suspends).  Under capacity `_get_browser` connects a new
browser; at browser capacity it picks an existing one (`random.choice`,
the picked index `i` being the nondeterminism).  Before `startup()` the
acquisition raises and the unwind releases the semaphore slot, leaving the
state unchanged. -/
inductive PoolStep (cfg : PoolConfig) : PoolState → PoolLabel → PoolState → Prop where
  | startup (s : PoolState) :
      PoolStep cfg s .startup { s with started := true }
  | acquireNew (s : PoolState) (hst : s.started = true)
      (hp : s.pagesOut < cfg.maxPages) (hb : s.browsers.length < cfg.maxBrowsers) :
      PoolStep cfg s (.acquire s.nextId)
        { s with browsers := s.browsers ++ [s.nextId],
                 nextId := s.nextId + 1,
                 pagesOut := s.pagesOut + 1 }
  | acquireExisting (s : PoolState) (i : Fin s.browsers.length)
      (hst : s.started = true) (hp : s.pagesOut < cfg.maxPages)
      (hb : cfg.maxBrowsers ≤ s.browsers.length) :
      PoolStep cfg s (.acquire (s.browsers.get i)) { s with pagesOut := s.pagesOut + 1 }
  | acquireFail (s : PoolState) (hst : s.started = false)
      (hp : s.pagesOut < cfg.maxPages) :
      PoolStep cfg s .acquireFail s
  | release (s : PoolState) (hp : 0 < s.pagesOut) :
      PoolStep cfg s .release { s with pagesOut := s.pagesOut - 1 }

/-- States the pool can reach from construction through any interleaving
of steps. -/
inductive ReachablePool (cfg : PoolConfig) : PoolState → Prop where
  | init : ReachablePool cfg initPool
  | step {s l s'} : ReachablePool cfg s → PoolStep cfg s l s' → ReachablePool cfg s'

/-- The `RuntimeError` raised when the pool is used before `startup()`. -/
def poolNotStartedError : PyExn :=
  .otherError "BrowserPool not initialized. Call startup() first."

/-- `_get_browser()` as a function of the state and the `random.choice`
oracle: raise before startup; connect and append a new browser while under
`max_browsers`; otherwise pick an existing connection (`random.choice`
raises `IndexError` on an empty list). -/
def getBrowserFn (cfg : PoolConfig) (s : PoolState) (choice : Nat) :
    Except PyExn (Nat × PoolState) :=
  if s.started = false then .error poolNotStartedError
  else if s.browsers.length < cfg.maxBrowsers then
    .ok (s.nextId,
      { s with browsers := s.browsers ++ [s.nextId], nextId := s.nextId + 1 })
  else
    match s.browsers.get? (choice % s.browsers.length) with
    | some b => .ok (b, s)
    | none => .error (.otherError "IndexError")

/-- How the caller's `async with pool.page() as page:` block exits. -/
inductive ExitKind where
  | normalExit
  | raiseExit (e : PyExn)
  | cancelExit
  deriving DecidableEq, Repr

/-- Outcome of one awaited setup step (`browser.new_context()` or
`context.new_page()`): it completes, or an exception — a raised error or a
`CancelledError` landing on the await — unwinds out of it. -/
inductive StepOutcome where
  | stepOk
  | stepRaise (e : PyExn)
  deriving DecidableEq, Repr

/-- One full `page()` acquisition, following the source line by line:
`_get_browser()`, then `context = await browser.new_context()`, then
`page = await context.new_page()`, and only then `try: yield page`
`finally: await context.close()`.  Returns what `page()` propagates, the
pool state afterwards (the semaphore slot is released on every unwind, so
only `_get_browser`'s effect remains), whether a browsing context was
created for this caller, and whether it was closed.  The `finally` is
armed only after `new_page` succeeds: a `new_page` failure or cancellation
unwinds with the created context never closed. -/
def pageSession (cfg : PoolConfig) (s : PoolState) (choice : Nat)
    (ctxRes pageRes : StepOutcome) (exit : ExitKind) :
    Except PyExn Unit × PoolState × Bool × Bool :=
  match getBrowserFn cfg s choice with
  | .error e => (.error e, s, false, false)
  | .ok (_, s1) =>
    match ctxRes with
    | .stepRaise e => (.error e, s1, false, false)
    | .stepOk =>
      match pageRes with
      | .stepRaise e => (.error e, s1, true, false)
      | .stepOk =>
        match exit with
        | .normalExit => (.ok (), s1, true, true)
        | .raiseExit e => (.error e, s1, true, true)
        | .cancelExit => (.error (.otherError "CancelledError"), s1, true, true)

/-! ## One attempt of `scrape_job` (`src/jobs.py`, body) -/

/-- The playwright-level actions one attempt of `scrape_job` performs, in
order.  `poolAcquire` is the action a `BrowserPool.page()` acquisition
would be; it is part of the vocabulary so its absence is expressible. -/
inductive ScrapeAction where
  | playwrightStart
  | browserConnect (wsEndpoint : String)
  | poolAcquire
  | newPage
  | routeAbort (pattern : String)
  | gotoPage (url : String) (waitUntil : String)
  | extract
  | browserClose
  deriving DecidableEq, Repr

/-- Where one attempt fails, if anywhere: the navigation, the extraction,
or nowhere. -/
inductive AttemptFail where
  | gotoFail (e : PyExn)
  | extractFail (e : PyExn)
  | noFail
  deriving DecidableEq, Repr

/-- The websocket endpoint `scrape_job` connects to. -/
def scrapeWsEndpoint : String :=
  "ws://browserless:3000/firefox/playwright?headless=false"

/-- The route pattern whose requests the page aborts. -/
def blockedPattern : String := "**/*.\x7bpng,jpg,jpeg,gif,css,woff2\x7d"

/-- The body of `scrape_job(job_url, job_scraper)`, one attempt: start
playwright, connect a browser directly to the browserless endpoint, then
under `try`: new page, abort image/style/font routes, `goto(url,
wait_until="domcontentloaded")`, `job_scraper.extract(page)`; and under
`finally`: `browser.close()`.  Returns the action trace and the attempt's
outcome (`jd` being what a successful extraction returns). -/
def scrape_attempt (jobUrl : String) (oc : AttemptFail) (jd : JobData) :
    List ScrapeAction × Outcome JobData :=
  let pre : List ScrapeAction :=
    [.playwrightStart, .browserConnect scrapeWsEndpoint, .newPage,
     .routeAbort blockedPattern, .gotoPage jobUrl "domcontentloaded"]
  match oc with
  | .gotoFail e => (pre ++ [.browserClose], .exn e)
  | .extractFail e => (pre ++ [.extract, .browserClose], .exn e)
  | .noFail => (pre ++ [.extract, .browserClose], .ok jd)

/-! ## Theorems -/

/-- The retry predicate `ingest_llm` is wrapped with rejects every possible
outcome of the wrapped call: a raised exception because `retry_if_result`
ignores exceptions, a returned stream because a stream is not an exception
instance. -/
theorem ingest_retry_pred_false (oc : Outcome (List Chunk)) :
    retryIfResult (fun s => is_retryable_error (.streamObj s)) oc = false := by
  cases oc with
  | ok a => rfl
  | exn e => rfl

/-- C1: the claim says a 429 rate-limit (or server-error) LLM request is
retried and a subsequent success makes the call succeed.  The code wires
the exception classifier `is_retryable_error` into
`tenacity.retry_if_result`, which only ever examines returned values, so
the raised 429 `ClientError` propagates after exactly one attempt with no
sleeps; the configured 5-attempt / exponential-backoff policy is dead
code.  (A non-429 client error also fails immediately, as the claim says,
but trivially so.) -/
theorem C1_ingest_llm_429_not_retried :
    ingest_llm_run llm429ThenOk = (.raised (.clientError 429), 1, []) ∧
    ingest_llm_run (fun _ => .exn (.clientError 404))
      = (.raised (.clientError 404), 1, []) ∧
    ingest_llm_run (fun _ => .exn (.serverError 500))
      = (.raised (.serverError 500), 1, []) := by
  refine ⟨rfl, rfl, rfl⟩

/-- `wait_exponential` never exceeds its cap (when the floor is itself
within the cap). -/
theorem waitExponential_le_max (multiplier minW maxW n : Nat)
    (h : minW ≤ maxW) : waitExponential multiplier minW maxW n ≤ maxW := by
  unfold waitExponential
  exact max_le h (min_le_right _ _)

/-- `wait_exponential` never sleeps less than its floor. -/
theorem waitExponential_ge_min (multiplier minW maxW n : Nat) :
    minW ≤ waitExponential multiplier minW maxW n :=
  le_max_left _ _

/-- C4: `scrape_job`'s retry policy.  A navigation timeout on the first two
attempts followed by success on the third completes successfully with
exactly 3 attempts (sleeping 2s then 4s); any non-timeout exception
propagates on the first attempt with no retry; sustained timeouts exhaust
the 3 attempts and raise `RetryError`; the backoff starts at 2s and every
sleep is within [2s, 10s]. -/
theorem C4_scrape_retry_policy :
    (∀ jd : JobData,
      scrape_job_run (fun n => if n ≤ 2 then .exn .timeoutError else .ok jd)
        = (.returned jd, 3, [2, 4])) ∧
    (∀ e : PyExn, isTimeoutExn e = false →
      scrape_job_run (fun _ => .exn e) = (.raised e, 1, [])) ∧
    scrape_job_run (fun _ => .exn .timeoutError)
      = (.retryError (.exn .timeoutError), 3, [2, 4]) ∧
    scrapeWait 1 = 2 ∧ scrapeWait 2 = 4 ∧
    (∀ n, scrapeWait n ≤ 10) ∧ (∀ n, 2 ≤ scrapeWait n) := by
  refine ⟨fun jd => rfl, fun e he => ?_, rfl, rfl, rfl,
    fun n => waitExponential_le_max 1 2 10 n (by norm_num),
    fun n => waitExponential_ge_min 1 2 10 n⟩
  simp [scrape_job_run, tenacityRun, tenacityGo, retryIfExceptionType, he]

/-- C4 witness: a selector-not-found error is not a timeout and propagates
with zero retries. -/
theorem C4_scrape_retry_policy_witness :
    scrape_job_run (fun _ => .exn (.otherError "selector not found"))
      = (.raised (.otherError "selector not found"), 1, []) :=
  C4_scrape_retry_policy.2.1 (.otherError "selector not found") rfl

theorem empty_str_append (s : String) : "" ++ s = s := rfl

/-- Skipped empty and missing chunk texts do not change the concatenation:
the published delta texts concatenate to the full analysis. -/
theorem concat_delta_eq_fullText (chunks : List Chunk) :
    concatTexts (deltaTexts (deltaEvents chunks)) = fullText chunks := by
  induction chunks with
  | nil => rfl
  | cons c rest ih =>
    cases hc : c.text with
    | none =>
      simpa [deltaEvents, deltaTexts, fullText, concatTexts, hc,
        empty_str_append] using ih
    | some s =>
      by_cases hs : s = ""
      · subst hs
        simpa [deltaEvents, deltaTexts, fullText, concatTexts, hc,
          empty_str_append] using ih
      · simp only [deltaEvents, deltaTexts, fullText, concatTexts,
          List.filterMap_cons, List.map_cons, hc, hs, if_neg hs,
          Option.getD_some]
        exact congrArg (fun t => s ++ t) ih

/-- The action trace of a fully successful run of the orchestrator. -/
theorem run_trace_eq (url : String) (jd : JobData) (chunks : List Chunk) :
    (scrape_job_and_ingress_llm url (.ok jd) (fun _ => .ok chunks)).1 =
      [.publish (.status "scraping" "Accessing job url..."), .scrapeCall url,
       .publish (.status "analyzing" "Reasoning with AI"), .llmCall]
        ++ (deltaEvents chunks).map .publish
        ++ [.publish (.done "complete")] := rfl

theorem publishedEvents_append (l1 l2 : List JobAction) :
    publishedEvents (l1 ++ l2) = publishedEvents l1 ++ publishedEvents l2 :=
  List.filterMap_append l1 l2 _

theorem publishedEvents_map_publish (es : List Event) :
    publishedEvents (es.map .publish) = es := by
  induction es with
  | nil => rfl
  | cons e rest ih =>
    simp only [publishedEvents, List.map_cons, List.filterMap_cons] at ih ⊢
    rw [ih]

/-- The events a fully successful run publishes, in order. -/
theorem run_published_eq (url : String) (jd : JobData) (chunks : List Chunk) :
    publishedEvents
        (scrape_job_and_ingress_llm url (.ok jd) (fun _ => .ok chunks)).1 =
      .status "scraping" "Accessing job url..."
        :: .status "analyzing" "Reasoning with AI"
        :: (deltaEvents chunks ++ [.done "complete"]) := by
  rw [run_trace_eq, publishedEvents_append, publishedEvents_append,
    publishedEvents_map_publish]
  rfl

/-- C2: a run of `scrape_job_and_ingress_llm` in which the scrape and the
LLM stream both succeed escapes no exception, and its trace is exactly:
publish `status=scraping`, then the scrape invocation, then publish
`status=analyzing`, then the LLM stream invocation, then one `delta`
publish per non-empty chunk in stream order, then the final `done` event
with `status=complete`; the concatenated delta texts are the full
analysis.  (The `status=scraping` publish sits strictly before the scrape
call and `status=analyzing` strictly before the LLM call in the trace.) -/
theorem C2_event_log_order (url : String) (jd : JobData) (chunks : List Chunk) :
    (scrape_job_and_ingress_llm url (.ok jd) (fun _ => .ok chunks)).2 = none ∧
    (scrape_job_and_ingress_llm url (.ok jd) (fun _ => .ok chunks)).1 =
      [.publish (.status "scraping" "Accessing job url..."), .scrapeCall url,
       .publish (.status "analyzing" "Reasoning with AI"), .llmCall]
        ++ (deltaEvents chunks).map .publish
        ++ [.publish (.done "complete")] ∧
    publishedEvents
        (scrape_job_and_ingress_llm url (.ok jd) (fun _ => .ok chunks)).1 =
      .status "scraping" "Accessing job url..."
        :: .status "analyzing" "Reasoning with AI"
        :: (deltaEvents chunks ++ [.done "complete"]) ∧
    concatTexts (deltaTexts (deltaEvents chunks)) = fullText chunks :=
  ⟨rfl, run_trace_eq url jd chunks, run_published_eq url jd chunks,
    concat_delta_eq_fullText chunks⟩

/-- `deltaEvents` is exactly one delta per truthy chunk, in order. -/
theorem deltaEvents_eq_filter (chunks : List Chunk) :
    deltaEvents chunks =
      (chunks.filter chunkTruthy).map fun c => Event.delta (c.text.getD "") := by
  induction chunks with
  | nil => rfl
  | cons c rest ih =>
    cases hc : c.text with
    | none => simp [deltaEvents, chunkTruthy, hc, ih, deltaEvents] at ih ⊢; exact ih
    | some s =>
      by_cases hs : s = ""
      · subst hs; simp [deltaEvents, chunkTruthy, hc] at ih ⊢; exact ih
      · simp [deltaEvents, chunkTruthy, hc, hs] at ih ⊢; exact ih

/-- C10: the delta loop publishes an event exactly for the chunks whose
`text` is a non-`None`, non-empty string (Python truthiness of
`chunk.text`), and a reader of a successful run's log never sees a delta
event with empty text. -/
theorem C10_delta_iff_truthy (url : String) (jd : JobData) (chunks : List Chunk) :
    deltaEvents chunks =
      (chunks.filter chunkTruthy).map (fun c => Event.delta (c.text.getD "")) ∧
    Event.delta "" ∉
      publishedEvents
        (scrape_job_and_ingress_llm url (.ok jd) (fun _ => .ok chunks)).1 := by
  refine ⟨deltaEvents_eq_filter chunks, ?_⟩
  rw [run_published_eq]
  intro hmem
  have h3 : Event.delta "" ∈ deltaEvents chunks := by simpa using hmem
  rw [deltaEvents_eq_filter] at h3
  rcases List.mem_map.mp h3 with ⟨c, hcmem, hceq⟩
  have htr : chunkTruthy c = true := (List.mem_filter.mp hcmem).2
  have hgd : c.text.getD "" = "" := by injection hceq
  cases hct : c.text with
  | none => rw [chunkTruthy, hct] at htr; exact Bool.noConfusion htr
  | some s =>
    rw [chunkTruthy, hct] at htr
    have hs : s ≠ "" := by simpa using htr
    rw [hct] at hgd
    exact hs (by simpa using hgd)

/-- Both arms of `process_and_save_resume`'s outer try/except return
normally: the handler never lets an exception escape. -/
theorem process_swallow_aux (body : Outcome Unit) :
    (match body with
     | Outcome.exn _ => ((none : Option PyExn), true)
     | Outcome.ok _ => ((none : Option PyExn), false)).1 = none := by
  cases body <;> rfl

/-- C7 counterexample: the analysis handler `scrape_job_and_ingress_llm`
has no try/except boundary, so an orchestrator-level failure (here, the
scrape step raising) escapes the handler instead of being caught, logged
and swallowed. -/
theorem C7_counterexample_uncaught :
    (scrape_job_and_ingress_llm "https://www.seek.com.au/job/1"
        (.exn (.otherError "boom")) (fun _ => .ok [])).2
      = some (.otherError "boom") := rfl

/-- C7, amended: `process_and_save_resume` does catch and swallow every
failure at its outermost try/except boundary (the handler never lets an
exception escape, and the except branch logs exactly when the body
failed); `scrape_job_and_ingress_llm` has no such boundary, so a scrape
or LLM failure escapes it; in every failing run the event log receives no
terminal `done` event. -/
theorem C7_handler_boundaries (fetched : Outcome (Option ResumeRow))
    (gen : String → Outcome (Option String)) (save : String → Outcome Unit)
    (url : String) (e e2 : PyExn) (llm : JobData → Outcome (List Chunk))
    (jd : JobData) :
    (process_and_save_resume fetched gen save).1 = none ∧
    (scrape_job_and_ingress_llm url (.exn e) llm).2 = some e ∧
    JobAction.publish (.done "complete")
      ∉ (scrape_job_and_ingress_llm url (.exn e) llm).1 ∧
    (scrape_job_and_ingress_llm url (.ok jd) (fun _ => .exn e2)).2 = some e2 ∧
    JobAction.publish (.done "complete")
      ∉ (scrape_job_and_ingress_llm url (.ok jd) (fun _ => .exn e2)).1 := by
  refine ⟨process_swallow_aux _, rfl, ?_, rfl, ?_⟩
  · simp [scrape_job_and_ingress_llm]
  · simp [scrape_job_and_ingress_llm]

/-- The job data the spec's end-to-end scenario uses. -/
def sampleJob : JobData :=
  ⟨"Backend Engineer", "Acme", "Remote", ["Go", "Kubernetes"]⟩

/-- C9 counterexample: a concrete successful attempt of `scrape_job` never
acquires a page from the `BrowserPool`; it connects its own fresh browser
directly to the browserless endpoint. -/
theorem C9_counterexample_direct_connect :
    ScrapeAction.poolAcquire
        ∉ (scrape_attempt "https://www.seek.com.au/job/1" .noFail sampleJob).1 ∧
    ScrapeAction.browserConnect scrapeWsEndpoint
        ∈ (scrape_attempt "https://www.seek.com.au/job/1" .noFail sampleJob).1 := by
  constructor
  · simp [scrape_attempt]
  · simp [scrape_attempt]

/-- C9, amended: every attempt of `scrape_job` starts its own playwright
session and connects a fresh browser directly to the browserless websocket
endpoint — the `BrowserPool` is not involved — then creates a new page,
blocks image/style/font requests, navigates waiting only for
DOM-content-loaded, and delegates to `job_scraper.extract`; the browser is
closed by the `finally` on every outcome, and the attempt succeeds exactly
when neither navigation nor extraction fails. -/
theorem C9_scrape_attempt_shape (url : String) (oc : AttemptFail) (jd : JobData) :
    ((scrape_attempt url oc jd).1).take 5 =
      [.playwrightStart, .browserConnect scrapeWsEndpoint, .newPage,
       .routeAbort blockedPattern, .gotoPage url "domcontentloaded"] ∧
    ((scrape_attempt url oc jd).1).getLast? = some .browserClose ∧
    ScrapeAction.poolAcquire ∉ (scrape_attempt url oc jd).1 ∧
    ((scrape_attempt url oc jd).2 = .ok jd ↔ oc = .noFail) := by
  cases oc <;> simp [scrape_attempt]

/-- The registered Seek scraper variant. -/
def seekScraper : ScraperVariant := ⟨"SeekJobScraper"⟩

/-- C5: `resolve` fails with the invalid-URL error exactly on an empty
netloc (e.g. `"not a url"`); otherwise it walks the registry in
registration order and returns the first variant whose key is a substring
of the netloc (`"seek.com.au"` matching `"www.seek.com.au"`), skipping
keys that do not occur in it; when no key is a substring it fails with the
no-scraper error naming the URL. -/
theorem C5_resolve_dispatch (registry rest : List (String × ScraperVariant))
    (url k : String) (v : ScraperVariant) :
    (netlocOf url = "" → resolve registry url = .error "URL has no valid hostname") ∧
    (netlocOf url ≠ "" → containsSub (netlocOf url) k = true →
      resolve ((k, v) :: rest) url = .ok v) ∧
    (netlocOf url ≠ "" → containsSub (netlocOf url) k = false →
      resolve ((k, v) :: rest) url = resolve rest url) ∧
    (netlocOf url ≠ "" →
      (∀ kv ∈ registry, containsSub (netlocOf url) kv.1 = false) →
      resolve registry url
        = .error ("No registered scraper for domain: " ++ url)) ∧
    netlocOf "https://www.seek.com.au/job/123" = "www.seek.com.au" ∧
    containsSub "www.seek.com.au" "seek.com.au" = true ∧
    resolve [("seek.com.au", seekScraper)] "https://www.seek.com.au/job/123"
      = .ok seekScraper ∧
    netlocOf "not a url" = "" ∧
    resolve [("seek.com.au", seekScraper)] "not a url"
      = .error "URL has no valid hostname" ∧
    resolve [("seek.com.au", seekScraper)] "https://unknown.example.com"
      = .error "No registered scraper for domain: https://unknown.example.com" := by
  refine ⟨?_, ?_, ?_, ?_, by decide, by decide, by rfl, by decide,
    by rfl, by rfl⟩
  · intro h
    simp [resolve, h]
  · intro h hk
    simp [resolve, h, hk, List.find?_cons]
  · intro h hk
    simp [resolve, h, hk, List.find?_cons]
  · intro h hall
    have : registry.find? (fun kv => containsSub (netlocOf url) kv.1) = none :=
      List.find?_eq_none.mpr (fun kv hkv => by simp [hall kv hkv])
    simp [resolve, h, this]

/-- Every reachable pool state keeps at most `max_pages` checked-out pages
and at most `max_browsers` browser connections. -/
theorem pool_inv (cfg : PoolConfig) (s : PoolState)
    (h : ReachablePool cfg s) :
    s.pagesOut ≤ cfg.maxPages ∧ s.browsers.length ≤ cfg.maxBrowsers := by
  induction h with
  | init => exact ⟨Nat.zero_le _, Nat.zero_le _⟩
  | step hr hs ih =>
    cases hs with
    | startup => exact ih
    | acquireNew hst hp hb =>
      refine ⟨hp, ?_⟩
      simpa using hb
    | acquireExisting i hst hp hb => exact ⟨hp, ih.2⟩
    | acquireFail hst hp => exact ih
    | release hp => exact ⟨le_trans (Nat.sub_le _ _) ih.1, ih.2⟩

/-- C6: in every reachable state the pool's two bounds hold; when the page
semaphore is at capacity no acquire transition exists at all (a caller can
only suspend, never error out of capacity); and when the browser list is
at capacity an acquisition picks one of the existing connections (the
`random.choice` pick) and leaves the connection list unchanged. -/
theorem C6_pool_bounds (cfg : PoolConfig) (s : PoolState)
    (h : ReachablePool cfg s) :
    (s.pagesOut ≤ cfg.maxPages ∧ s.browsers.length ≤ cfg.maxBrowsers) ∧
    (∀ b s', s.pagesOut = cfg.maxPages → ¬ PoolStep cfg s (.acquire b) s') ∧
    (∀ b s', cfg.maxBrowsers ≤ s.browsers.length →
      PoolStep cfg s (.acquire b) s' →
      b ∈ s.browsers ∧ s'.browsers = s.browsers) := by
  refine ⟨pool_inv cfg s h, ?_, ?_⟩
  · intro b s' hfull hstep
    cases hstep with
    | acquireNew hst hp hb => exact absurd hfull (Nat.ne_of_lt hp)
    | acquireExisting i hst hp hb => exact absurd hfull (Nat.ne_of_lt hp)
  · intro b s' hcap hstep
    cases hstep with
    | acquireNew hst hp hb => exact absurd hb (Nat.not_lt.mpr hcap)
    | acquireExisting i hst hp hb => exact ⟨List.get_mem _ _ _, rfl⟩

/-- The state after startup, one page acquisition on a fresh connection,
and the page's release. -/
def poolAfterCycle : PoolState := ⟨true, [0], 0, 1⟩

/-- C6 witness: the bounds hold of the concrete state reached by startup,
one acquisition and one release under `max_browsers = 1, max_pages = 2`. -/
theorem C6_pool_bounds_witness :
    poolAfterCycle.pagesOut ≤ (2 : Nat) ∧
    poolAfterCycle.browsers.length ≤ (1 : Nat) :=
  (C6_pool_bounds ⟨1, 2⟩ poolAfterCycle
    (.step (.step (.step .init (.startup initPool))
        (.acquireNew ⟨true, [], 0, 0⟩ rfl (by decide) (by decide)))
      (.release ⟨true, [0], 1, 1⟩ (by decide)))).1

/-- A successful `_get_browser` only ever extends the pool's browser list
(by the connection it opened) or leaves it unchanged. -/
theorem getBrowserFn_browsers_pre {cfg : PoolConfig} {s : PoolState}
    {choice : Nat} {b : Nat} {s1 : PoolState}
    (h : getBrowserFn cfg s choice = .ok (b, s1)) :
    s.browsers <+: s1.browsers := by
  unfold getBrowserFn at h
  by_cases hst : s.started = false
  · rw [if_pos hst] at h
    exact absurd h (by simp)
  · rw [if_neg hst] at h
    by_cases hlen : s.browsers.length < cfg.maxBrowsers
    · rw [if_pos hlen] at h
      injection h with h'
      cases h'
      exact ⟨[s.nextId], rfl⟩
    · rw [if_neg hlen] at h
      cases hg : s.browsers.get? (choice % s.browsers.length) with
      | none => rw [hg] at h; exact absurd h (by simp)
      | some b0 =>
        rw [hg] at h
        injection h with h'
        cases h'
        exact List.prefix_refl _

/-- C8 counterexample: on a started pool, a `new_page` failure (or a
cancellation landing on that await) unwinds before the `finally` is
armed, so the context just created for this caller is never closed —
refuting teardown on every exit path of every acquisition. -/
theorem C8_counterexample_context_leak :
    pageSession ⟨1, 2⟩ ⟨true, [], 0, 0⟩ 0 .stepOk
        (.stepRaise (.otherError "Target closed")) .normalExit
      = (.error (.otherError "Target closed"),
         ⟨true, [0], 0, 1⟩, true, false) := rfl

/-- C8, amended: `page()` before `startup()` fails fast with the
`RuntimeError` precondition error and creates no context; after a
successful `_get_browser` the pool's browser-connection list is retained
(possibly extended by the connection just opened), and once `new_context`
and `new_page` have both succeeded — the `try/finally` entered — the
context is torn down on every exit path, normal return, exception and
cancellation alike.  The `finally` is armed only after `new_page`,
though: a `new_page` failure or cancellation leaks the created context
(created and never closed), while a `new_context` failure creates no
context and propagates. -/
theorem C8_page_teardown_scoped (cfg : PoolConfig) (s : PoolState)
    (choice : Nat) (exit : ExitKind) (b : Nat) (s1 : PoolState) (e : PyExn) :
    (∀ ctxRes pageRes, s.started = false →
      pageSession cfg s choice ctxRes pageRes exit
        = (.error poolNotStartedError, s, false, false)) ∧
    (getBrowserFn cfg s choice = .ok (b, s1) →
      s.browsers <+: s1.browsers ∧
      (pageSession cfg s choice .stepOk .stepOk exit).2 = (s1, true, true) ∧
      pageSession cfg s choice .stepOk (.stepRaise e) exit
        = (.error e, s1, true, false) ∧
      pageSession cfg s choice (.stepRaise e) .stepOk exit
        = (.error e, s1, false, false)) := by
  constructor
  · intro ctxRes pageRes h
    cases ctxRes <;> cases pageRes <;> cases exit <;>
      simp [pageSession, getBrowserFn, h]
  · intro h
    refine ⟨getBrowserFn_browsers_pre h, ?_, ?_, ?_⟩
    · unfold pageSession
      rw [h]
      cases exit <;> rfl
    · unfold pageSession
      rw [h]
    · unfold pageSession
      rw [h]

/-- `endCursor` of a nonempty batch is the id of one of its entries. -/
theorem endCursor_mem : ∀ (b : List Entry) (c : Nat), b ≠ [] →
    ∃ e ∈ b, endCursor c b = e.id
  | [], _, hb => absurd rfl hb
  | [x], _, _ => ⟨x, List.mem_singleton_self x, rfl⟩
  | x :: y :: xs, _, _ => by
    obtain ⟨e, he, heq⟩ := endCursor_mem (y :: xs) x.id (by simp)
    exact ⟨e, List.mem_cons_of_mem x he, heq⟩

/-- Replaying a batch with no `done` entry yields every frame, leaves the
cursor at the last entry's id, and does not stop the generator. -/
theorem processEntries_no_done : ∀ (b : List Entry) (c : Nat),
    hasDone b = false →
    processEntries b c = (framesOf b, endCursor c b, false)
  | [], _, _ => rfl
  | e :: rest, c, h => by
    rw [hasDone, List.any_cons] at h
    cases hde : (e.type == "done") with
    | true => rw [hde] at h; exact absurd h (by simp)
    | false =>
      rw [hde] at h
      simp only [Bool.false_or] at h
      have hne : ¬ e.type = "done" := by simpa using hde
      rw [processEntries, if_neg hne, processEntries_no_done rest e.id h]
      rfl

/-- Replaying a batch that contains a `done` entry yields exactly the
frames up to and including the first `done`, and stops the generator. -/
theorem processEntries_done : ∀ (b : List Entry) (c : Nat),
    hasDone b = true →
    (processEntries b c).1 = framesOf (takeUntilDone b) ∧
    (processEntries b c).2.2 = true
  | [], _, h => by exact absurd h (by simp [hasDone])
  | e :: rest, c, h => by
    by_cases hde : e.type = "done"
    · rw [processEntries, if_pos hde, takeUntilDone, if_pos hde]
      exact ⟨rfl, rfl⟩
    · have hrest : hasDone rest = true := by
        rw [hasDone, List.any_cons] at h
        rcases Bool.or_eq_true_iff.mp h with h1 | h1
        · exact absurd (by simpa using h1) hde
        · exact h1
      obtain ⟨h1, h2⟩ := processEntries_done rest e.id hrest
      rw [processEntries, if_neg hde, takeUntilDone, if_neg hde]
      exact ⟨by rw [framesOf, List.map_cons]; exact congrArg _ h1, h2⟩

/-- If the first `done` falls inside a prefix, cutting at `done` ignores
everything past the prefix. -/
theorem takeUntilDone_take_of_done : ∀ (l : List Entry) (k : Nat),
    hasDone (l.take k) = true →
    takeUntilDone (l.take k) = takeUntilDone l
  | [], k, h => by rw [List.take_nil] at h; exact absurd h (by simp [hasDone])
  | _ :: _, 0, h => by exact absurd h (by simp [hasDone])
  | e :: rest, k + 1, h => by
    rw [List.take_succ_cons] at h ⊢
    by_cases hde : e.type = "done"
    · rw [takeUntilDone, if_pos hde, takeUntilDone, if_pos hde]
    · have hrest : hasDone (rest.take k) = true := by
        rw [hasDone, List.any_cons] at h
        rcases Bool.or_eq_true_iff.mp h with h1 | h1
        · exact absurd (by simpa using h1) hde
        · exact h1
      rw [takeUntilDone, if_neg hde, takeUntilDone, if_neg hde,
        takeUntilDone_take_of_done rest k hrest]

/-- If a prefix has no `done`, cutting at `done` splits around it. -/
theorem takeUntilDone_split : ∀ (l : List Entry) (k : Nat),
    hasDone (l.take k) = false →
    takeUntilDone l = l.take k ++ takeUntilDone (l.drop k)
  | [], k, _ => by simp
  | _ :: _, 0, _ => rfl
  | e :: rest, k + 1, h => by
    rw [List.take_succ_cons] at h ⊢
    rw [hasDone, List.any_cons] at h
    cases hde : (e.type == "done") with
    | true => rw [hde] at h; exact absurd h (by simp)
    | false =>
      rw [hde] at h
      simp only [Bool.false_or] at h
      have hne : ¬ e.type = "done" := by simpa using hde
      rw [takeUntilDone, if_neg hne, List.drop_succ_cons,
        takeUntilDone_split rest k h, List.cons_append]

/-- In a strictly id-sorted list split as `b ++ rest` with `b` nonempty,
filtering for ids past `endCursor _ b` yields exactly `rest`. -/
theorem sorted_filter_skip : ∀ (b rest : List Entry) (c : Nat),
    (b ++ rest).Pairwise (fun x y => x.id < y.id) → b ≠ [] →
    (b ++ rest).filter (fun e => endCursor c b < e.id) = rest
  | [], _, _, _, hb => absurd rfl hb
  | [x], rest, c, hp, _ => by
    rw [List.singleton_append, List.filter_cons] at *
    have hx : ¬ endCursor c [x] < x.id := by
      show ¬ x.id < x.id
      exact lt_irrefl _
    rw [if_neg (by simpa using hx)]
    apply List.filter_eq_self.mpr
    intro a ha
    have := (List.pairwise_cons.mp hp).1 a ha
    simpa [endCursor] using this
  | x :: y :: xs, rest, c, hp, _ => by
    rw [List.cons_append, List.filter_cons]
    have hp' := List.pairwise_cons.mp hp
    obtain ⟨e, he, heq⟩ := endCursor_mem (y :: xs) x.id (by simp)
    have hxe : x.id < e.id :=
      hp'.1 e (List.mem_append_left rest he)
    have hx : ¬ endCursor c (x :: y :: xs) < x.id := by
      show ¬ endCursor x.id (y :: xs) < x.id
      rw [heq]
      exact fun hlt => absurd hxe (not_lt.mpr (le_of_lt hlt))
    rw [if_neg (by simpa using hx)]
    have := sorted_filter_skip (y :: xs) rest x.id hp'.2 (by simp)
    simpa [endCursor] using this

theorem xread_eq (log : List Entry) (c n : Nat) :
    xread log c n = (log.filter fun e => c < e.id).take n := rfl

theorem framesOf_append (l1 l2 : List Entry) :
    framesOf (l1 ++ l2) = framesOf l1 ++ framesOf l2 :=
  List.map_append _ l1 l2

/-- After a nonempty batch is fully replayed, polling at the advanced
cursor sees exactly the entries past the batch. -/
theorem next_rem (log : List Entry)
    (hs : log.Pairwise (fun x y => x.id < y.id)) (c : Nat)
    (hne : (log.filter fun e => c < e.id).take xreadCount ≠ []) :
    (log.filter fun e =>
        endCursor c ((log.filter fun e => c < e.id).take xreadCount) < e.id)
      = (log.filter fun e => c < e.id).drop xreadCount := by
  set rem := log.filter fun e => c < e.id with hrem
  set batch := rem.take xreadCount with hbatch
  obtain ⟨eb, hmemb, heq⟩ := endCursor_mem batch c hne
  have hmemrem : eb ∈ rem := List.take_subset _ _ hmemb
  have hcc : c < eb.id := by
    have h1 : eb ∈ log.filter fun e => c < e.id := by rw [← hrem]; exact hmemrem
    exact of_decide_eq_true (List.mem_filter.mp h1).2
  have step1 : (log.filter fun e => endCursor c batch < e.id)
      = rem.filter fun e => endCursor c batch < e.id := by
    rw [hrem, List.filter_filter]
    apply List.filter_congr
    intro a _
    by_cases hd : endCursor c batch < a.id
    · have hd' : eb.id < a.id := by rw [← heq]; exact hd
      have hca : c < a.id := lt_trans hcc hd'
      simp [hd, hca]
    · simp [hd]
  have hsplit : batch ++ rem.drop xreadCount = rem := by
    rw [hbatch]
    exact List.take_append_drop _ _
  have hsorted_rem : rem.Pairwise (fun x y => x.id < y.id) :=
    List.Pairwise.sublist (by rw [hrem]; exact List.filter_sublist log) hs
  have step2 : (rem.filter fun e => endCursor c batch < e.id)
      = rem.drop xreadCount := by
    have h2 := sorted_filter_skip batch (rem.drop xreadCount) c
      (by rw [hsplit]; exact hsorted_rem) hne
    rw [hsplit] at h2
    exact h2
  rw [step1, step2]

/-- With a `done` entry pending and at least as many polls as pending
entries, the loop delivers exactly the frames up to and including the
first `done` past the cursor. -/
theorem loop_exact (log : List Entry)
    (hs : log.Pairwise (fun x y => x.id < y.id)) :
    ∀ (polls c : Nat),
      hasDone (log.filter fun e => c < e.id) = true →
      (log.filter fun e => c < e.id).length ≤ polls →
      analysisLoop log c polls
        = framesOf (takeUntilDone (log.filter fun e => c < e.id))
  | 0, c, hd, hlen => by
    have h0 : (log.filter fun e => c < e.id) = [] :=
      List.length_eq_zero.mp (Nat.le_zero.mp hlen)
    rw [h0] at hd
    exact absurd hd (by simp [hasDone])
  | polls + 1, c, hd, hlen => by
    rw [analysisLoop, xread_eq]
    set rem := log.filter fun e => c < e.id with hrem
    have hrem_ne : rem ≠ [] := by
      intro h0
      rw [h0] at hd
      exact absurd hd (by simp [hasDone])
    have hbatch_ne : rem.take xreadCount ≠ [] := by
      rw [Ne, List.take_eq_nil_iff]
      push_neg
      exact ⟨by norm_num [xreadCount], hrem_ne⟩
    rw [if_neg (by simp [List.isEmpty_eq_false.mpr hbatch_ne])]
    by_cases hbd : hasDone (rem.take xreadCount) = true
    · obtain ⟨h1, h2⟩ := processEntries_done (rem.take xreadCount) c hbd
      rw [if_pos (by rw [h2]), h1,
        takeUntilDone_take_of_done rem xreadCount hbd]
    · have hbd' : hasDone (rem.take xreadCount) = false :=
        Bool.eq_false_iff.mpr hbd
      rw [processEntries_no_done (rem.take xreadCount) c hbd']
      rw [if_neg (by simp)]
      have hnext := next_rem log hs c (by rw [← hrem]; exact hbatch_ne)
      rw [← hrem] at hnext
      have hd2 : hasDone (rem.drop xreadCount) = true := by
        have : hasDone rem = true := hd
        rw [← List.take_append_drop xreadCount rem, hasDone,
          List.any_append] at this
        rcases Bool.or_eq_true_iff.mp this with h3 | h3
        · exact absurd h3 (by rw [← hasDone] at *; exact hbd)
        · exact h3
      have hlen2 : (rem.drop xreadCount).length ≤ polls := by
        rw [List.length_drop]
        have hx : xreadCount = 10 := rfl
        omega
      have ih := loop_exact log hs polls (endCursor c (rem.take xreadCount))
        (by rw [hnext]; exact hd2) (by rw [hnext]; exact hlen2)
      rw [ih, hnext, takeUntilDone_split rem xreadCount hbd',
        framesOf_append]

/-- For any number of polls the loop only ever delivers a prefix of the
frames up to the first `done` past the cursor: nothing positioned after
`done` is delivered, whatever the poll budget. -/
theorem loop_prefix (log : List Entry)
    (hs : log.Pairwise (fun x y => x.id < y.id)) :
    ∀ (polls c : Nat),
      analysisLoop log c polls <+:
        framesOf (takeUntilDone (log.filter fun e => c < e.id))
  | 0, c => List.nil_prefix
  | polls + 1, c => by
    rw [analysisLoop, xread_eq]
    set rem := log.filter fun e => c < e.id with hrem
    by_cases hbe : rem.take xreadCount = []
    · rw [if_pos (by simp [List.isEmpty_iff.mpr hbe])]
      have := loop_prefix log hs polls c
      rw [← hrem] at this
      exact this
    · rw [if_neg (by simp [List.isEmpty_eq_false.mpr hbe])]
      by_cases hbd : hasDone (rem.take xreadCount) = true
      · obtain ⟨h1, h2⟩ := processEntries_done (rem.take xreadCount) c hbd
        rw [if_pos (by rw [h2]), h1,
          takeUntilDone_take_of_done rem xreadCount hbd]
      · have hbd' : hasDone (rem.take xreadCount) = false :=
          Bool.eq_false_iff.mpr hbd
        rw [processEntries_no_done (rem.take xreadCount) c hbd']
        rw [if_neg (by simp)]
        have hnext := next_rem log hs c (by rw [← hrem]; exact hbe)
        rw [← hrem] at hnext
        have ih := loop_prefix log hs polls (endCursor c (rem.take xreadCount))
        rw [hnext] at ih
        obtain ⟨t, ht⟩ := ih
        refine ⟨t, ?_⟩
        rw [takeUntilDone_split rem xreadCount hbd', framesOf_append,
          List.append_assoc, ht]

/-- C3: the stream reader first emits the comment keep-alive frame and the
`status: listening` event, then polls the job's log from the start
(cursor `"0-0"`), with a 5000ms blocking wait and batches of at most 10
per poll; an empty poll leaves its state unchanged (the loop just
continues); on a well-formed log that contains a `done` entry the reader,
given at least as many polls as log entries, delivers exactly the frames
of the log up to and including the first `done`, in log order; and for
every poll budget whatsoever it delivers a prefix of those frames — no
entry positioned after the first `done` (later entries of the same batch
included) is ever delivered. -/
theorem C3_stream_reader (log : List Entry) (polls c : Nat) (h : WfLog log) :
    (analysis_generator log polls).take 2 = [":\n\n", listeningFrame] ∧
    analysis_generator log polls
      = ":\n\n" :: listeningFrame :: analysisLoop log 0 polls ∧
    xreadBlockMs = 5000 ∧ xreadCount = 10 ∧
    (xread log c xreadCount = [] →
      analysisLoop log c (polls + 1) = analysisLoop log c polls) ∧
    analysisLoop log 0 polls <+: framesOf (takeUntilDone log) ∧
    (hasDone log = true → log.length ≤ polls →
      analysis_generator log polls
        = ":\n\n" :: listeningFrame :: framesOf (takeUntilDone log)) := by
  have hfull : (log.filter fun e => 0 < e.id) = log :=
    List.filter_eq_self.mpr fun e he => decide_eq_true (h.2 e he)
  refine ⟨rfl, rfl, rfl, rfl, ?_, ?_, ?_⟩
  · intro hx
    rw [analysisLoop, hx]
    rfl
  · have hp := loop_prefix log h.1 polls 0
    rw [hfull] at hp
    exact hp
  · intro hdone hlen
    have he := loop_exact log h.1 polls 0
      (by rw [hfull]; exact hdone) (by rw [hfull]; exact hlen)
    rw [hfull] at he
    rw [analysis_generator, he]

/-- A well-formed log whose `done` entry is followed by a further entry in
the same batch. -/
def doneLog : List Entry :=
  [⟨1, "status", "a"⟩, ⟨2, "delta", "b"⟩, ⟨3, "done", "c"⟩, ⟨4, "delta", "d"⟩]

/-- C3 witness: on a concrete log with an entry after `done`, the reader
emits the keep-alive, the listening frame, and exactly the frames up to
and including `done` — the trailing entry is never delivered. -/
theorem C3_stream_reader_witness :
    analysis_generator doneLog 4
      = ":\n\n" :: listeningFrame :: framesOf (takeUntilDone doneLog) :=
  (C3_stream_reader doneLog 4 0 ⟨by decide, by decide⟩).2.2.2.2.2.2
    rfl (by decide)

/-- C8 witness: on a started pool with no connection yet, a fully set-up
acquisition whose caller block is cancelled still closes its context, and
the opened connection stays in the pool. -/
theorem C8_page_teardown_scoped_witness :
    (pageSession ⟨1, 2⟩ ⟨true, [], 0, 0⟩ 0 .stepOk .stepOk .cancelExit).2
      = (⟨true, [0], 0, 1⟩, true, true) :=
  ((C8_page_teardown_scoped ⟨1, 2⟩ ⟨true, [], 0, 0⟩ 0 .cancelExit 0
      ⟨true, [0], 0, 1⟩ (.otherError "x")).2 rfl).2.1

end Ria
